import Mathlib

/-!
Shallow embedding of the MIDI-file CRUD backend (`src/app.py`) and proofs
about its handlers.

Python strings are modelled as `List Char`; byte strings as `List Nat`.
`str.strip` / `str.lower` are modelled on ASCII (`pyStrip` / `pyLower`),
which is faithful for the inputs the handlers care about.  Database rows
are Lean structures; the store is a `DB` record holding the `midi_file`
and `tag` tables together with the `file_tag` association table and the
next auto-assigned primary keys.  Each handler is a pure function from
a request and a `DB` to a `Result` (HTTP response or unhandled Python
exception) and, for mutating handlers, the committed `DB`.
-/

namespace MidiApp

/-- Python `str` modelled as a list of characters. -/
abbrev Str := List Char

/-- Turn a Lean string literal into the `Str` model. -/
def pyStr (s : String) : Str := s.data

/-- ASCII whitespace, the characters `str.strip` removes. -/
def isPySpace (c : Char) : Bool :=
  c = ' ' || c = '\t' || c = '\n' || c = '\r' || c = '\x0b' || c = '\x0c'

/-- Python `str.strip()`: drop leading and trailing whitespace. -/
def pyStrip (s : Str) : Str :=
  ((s.dropWhile isPySpace).reverse.dropWhile isPySpace).reverse

/-- Lower-case one ASCII character, as Python `str.lower` does. -/
def lowerChar (c : Char) : Char :=
  if 'A' ≤ c ∧ c ≤ 'Z' then Char.ofNat (c.toNat + 32) else c

/-- Python `str.lower()` on the ASCII fragment. -/
def pyLower (s : Str) : Str := s.map lowerChar

/-- The tag-normalization loop of `add_file` / `update_file`
(`app.py` lines 79–88 and 176–185), specialised to string inputs:
`seen` is the set of already-kept lower-cased keys (a list, used only
through membership). -/
def normalizeFrom (seen : List Str) : List Str → List Str
  | [] => []
  | t :: ts =>
    let c := pyStrip t
    if c = [] then normalizeFrom seen ts
    else if pyLower c ∈ seen then normalizeFrom seen ts
    else c :: normalizeFrom (pyLower c :: seen) ts

/-- Tag normalization as the code runs it, starting from an empty `seen` set. -/
def normalizeTags (ts : List Str) : List Str := normalizeFrom [] ts

/-- Spec-side deduplication: keep an element iff its lower-cased key was
not kept before (first occurrence wins, order preserved). -/
def dedupFrom (seen : List Str) : List Str → List Str
  | [] => []
  | x :: xs =>
    if pyLower x ∈ seen then dedupFrom seen xs
    else x :: dedupFrom (pyLower x :: seen) xs

/-- Tag normalization exactly as the spec words it: trim every entry, drop
the ones that became empty, then keep only the first occurrence of each
case-insensitive class, preserving order. -/
def normalizeTagsSpec (ts : List Str) : List Str :=
  dedupFrom [] (((ts.map pyStrip).filter (fun c => c ≠ [])))

theorem normalizeFrom_eq_dedupFrom (ts : List Str) :
    ∀ seen, normalizeFrom seen ts
      = dedupFrom seen ((ts.map pyStrip).filter (fun c => c ≠ [])) := by
  induction ts with
  | nil => intro seen; rfl
  | cons t ts ih =>
    intro seen
    by_cases hc : pyStrip t = []
    · simp [normalizeFrom, hc, ih]
    · by_cases hm : pyLower (pyStrip t) ∈ seen
      · simp [normalizeFrom, hc, hm, dedupFrom, ih]
      · simp [normalizeFrom, hc, hm, dedupFrom, ih]

/-- C1.  Tag normalization: for every input list of tag strings, the code's
normalization loop produces exactly the list described by the spec — trim
each entry, drop entries empty after trimming, keep only the first
occurrence (with its trimmed original casing) of each case-insensitive
class, in first-occurrence order. -/
theorem tag_normalization_matches_spec (ts : List Str) :
    normalizeTags ts = normalizeTagsSpec ts :=
  normalizeFrom_eq_dedupFrom ts []

example : normalizeTags [pyStr "Rock", pyStr "rock", pyStr " Rock "] = [pyStr "Rock"] := by decide
example : normalizeTags [pyStr "  ", pyStr "a B", pyStr "A b", pyStr "c"]
    = [pyStr "a B", pyStr "c"] := by decide

/-! ### `pyStrip` is idempotent -/

theorem dropWhile_exists_append (p : α → Bool) (l : List α) :
    ∃ t, l = t ++ l.dropWhile p := by
  induction l with
  | nil => exact ⟨[], rfl⟩
  | cons x xs ih =>
    by_cases hp : p x
    · obtain ⟨t, ht⟩ := ih
      exact ⟨x :: t, by simpa [List.dropWhile_cons, hp] using congrArg (x :: ·) ht⟩
    · exact ⟨[], by simp [List.dropWhile_cons, hp]⟩

theorem head_false_of_dropWhile_self {p : α → Bool} {x : α} {xs : List α}
    (h : (x :: xs).dropWhile p = x :: xs) : p x = false := by
  by_contra hne
  have hp : p x = true := by revert hne; cases p x <;> simp
  rw [List.dropWhile_cons, if_pos hp] at h
  obtain ⟨t, ht⟩ := dropWhile_exists_append p xs
  rw [h] at ht
  have hlen := congrArg List.length ht
  simp only [List.length_append, List.length_cons] at hlen
  omega

theorem dropWhile_dropWhile (p : α → Bool) (l : List α) :
    (l.dropWhile p).dropWhile p = l.dropWhile p := by
  rcases h : l.dropWhile p with _ | ⟨x, xs⟩
  · rfl
  · have hx : p x = false := by
      induction l with
      | nil => simp at h
      | cons y ys ih =>
        rw [List.dropWhile_cons] at h
        by_cases hy : p y
        · rw [if_pos hy] at h; exact ih h
        · rw [if_neg hy] at h
          cases h
          revert hy; cases p x <;> simp
    simp [List.dropWhile_cons, hx]

theorem dropWhile_of_append_eq {p : α → Bool} {l r : List α}
    (h : (l ++ r).dropWhile p = l ++ r) : l.dropWhile p = l := by
  cases l with
  | nil => rfl
  | cons x xs =>
    have hx : p x = false := @head_false_of_dropWhile_self _ p x (xs ++ r) h
    simp [List.dropWhile_cons, hx]

/-- Dropping trailing whitespace, the second half of `pyStrip`. -/
def rstripWs (s : Str) : Str := (s.reverse.dropWhile isPySpace).reverse

theorem pyStrip_eq_rstrip_dropWhile (s : Str) :
    pyStrip s = rstripWs (s.dropWhile isPySpace) := rfl

theorem rstripWs_rstripWs (s : Str) : rstripWs (rstripWs s) = rstripWs s := by
  simp [rstripWs, dropWhile_dropWhile]

theorem dropWhile_rstripWs {s : Str} (h : s.dropWhile isPySpace = s) :
    (rstripWs s).dropWhile isPySpace = rstripWs s := by
  obtain ⟨t, ht⟩ := dropWhile_exists_append isPySpace s.reverse
  have hs : s = (rstripWs s) ++ t.reverse := by
    conv_lhs => rw [← List.reverse_reverse s, ht]
    simp [rstripWs]
  exact dropWhile_of_append_eq (by rw [← hs]; exact h)

theorem pyStrip_idem (s : Str) : pyStrip (pyStrip s) = pyStrip s := by
  rw [pyStrip_eq_rstrip_dropWhile, pyStrip_eq_rstrip_dropWhile]
  rw [dropWhile_rstripWs (dropWhile_dropWhile isPySpace s), rstripWs_rstripWs]

/-! ### Invariants of normalization: idempotence (C8) and no
case-insensitive duplicates (C9) -/

theorem normalizeFrom_invariant (ts : List Str) :
    ∀ seen, (∀ x ∈ normalizeFrom seen ts, pyStrip x = x ∧ x ≠ [] ∧ pyLower x ∉ seen)
      ∧ (normalizeFrom seen ts).Pairwise (fun a b => pyLower a ≠ pyLower b) := by
  induction ts with
  | nil => intro seen; simp [normalizeFrom]
  | cons t ts ih =>
    intro seen
    by_cases hc : pyStrip t = []
    · simpa [normalizeFrom, hc] using ih seen
    · by_cases hm : pyLower (pyStrip t) ∈ seen
      · simpa [normalizeFrom, hc, hm] using ih seen
      · have ihs := ih (pyLower (pyStrip t) :: seen)
        constructor
        · intro x hx
          rw [normalizeFrom] at hx
          simp only [hc, hm, if_neg, if_false] at hx
          rcases List.mem_cons.1 hx with hx | hx
          · subst hx
            exact ⟨pyStrip_idem t, hc, hm⟩
          · obtain ⟨h1, h2, h3⟩ := ihs.1 x hx
            exact ⟨h1, h2, fun hmem => h3 (List.mem_cons_of_mem _ hmem)⟩
        · rw [normalizeFrom]
          simp only [hc, hm, if_neg, if_false]
          refine List.pairwise_cons.2 ⟨?_, ihs.2⟩
          intro y hy heq
          exact (ihs.1 y hy).2.2 (heq ▸ List.mem_cons_self _ _)

theorem normalizeFrom_fixed (l : List Str) :
    ∀ seen, (∀ x ∈ l, pyStrip x = x ∧ x ≠ [] ∧ pyLower x ∉ seen) →
      l.Pairwise (fun a b => pyLower a ≠ pyLower b) →
      normalizeFrom seen l = l := by
  induction l with
  | nil => intro seen _ _; rfl
  | cons x xs ih =>
    intro seen hall hp
    obtain ⟨hstrip, hne, hseen⟩ := hall x (List.mem_cons_self _ _)
    rw [normalizeFrom]
    simp only [hstrip]
    rw [if_neg hne, if_neg hseen]
    refine congrArg (x :: ·) (ih _ ?_ (List.pairwise_cons.1 hp).2)
    intro y hy
    obtain ⟨h1, h2, h3⟩ := hall y (List.mem_cons_of_mem _ hy)
    refine ⟨h1, h2, ?_⟩
    intro hmem
    rcases List.mem_cons.1 hmem with hmem | hmem
    · exact (List.pairwise_cons.1 hp).1 y hy hmem.symm
    · exact h3 hmem

/-! ### Data model: rows, store, requests, responses -/

/-- The value of the `tags` form field after `json.loads`, shape only. -/
inductive Json where
  | str (s : Str)
  | num (n : Int)
  | bool (b : Bool)
  | null
  | arr (elems : List Json)
  | obj

/-- Raw `tags` form field: either `json.loads` fails, or it yields a value. -/
inductive TagsField where
  | malformed
  | wellFormed (j : Json)

/-- The tag-normalization loop on the raw parsed array, as the handlers run
it: `t.strip()` on a non-string element raises (`AttributeError`), modelled
by `Except.error`; string elements go through trim / drop-empty / dedup. -/
def normalizeJsonFrom (seen : List Str) : List Json → Except Unit (List Str)
  | [] => .ok []
  | j :: js =>
    match j with
    | .str t =>
      let c := pyStrip t
      if c = [] then normalizeJsonFrom seen js
      else if pyLower c ∈ seen then normalizeJsonFrom seen js
      else (normalizeJsonFrom (pyLower c :: seen) js).map (fun r => c :: r)
    | _ => .error ()

/-- A row of the `tag` table. -/
structure Tag where
  id : Nat
  tag : Str
deriving DecidableEq

/-- A row of the `midi_file` table. -/
structure MidiFile where
  id : Nat
  name : Str
  file_data : List Nat
  description : Option Str
deriving DecidableEq

/-- The relational store: both tables, the `file_tag` association table
(pairs `(file_id, tag_id)`), and the next auto-assigned primary keys. -/
structure DB where
  files : List MidiFile
  tags : List Tag
  file_tag : List (Nat × Nat)
  nextFileId : Nat
  nextTagId : Nat
deriving DecidableEq

/-- A multipart file part: `filename` and the bytes `file.read()` returns. -/
structure FilePart where
  filename : Str
  content : List Nat
deriving DecidableEq

/-- The `/addfile` request: optional file part and form fields.  An absent
form field is `none`; `tags` is `none` when the field is absent (the code
then defaults to the string `"[]"`, i.e. an empty JSON array). -/
structure AddReq where
  file : Option FilePart
  name : Option Str
  description : Option Str
  tags : Option TagsField

/-- The `/updatefile` request.  `id` is `none` when the form field is
absent or empty (the code's `if not file_id` check). -/
structure UpdateReq where
  id : Option Nat
  name : Option Str
  description : Option Str
  tags : Option TagsField
  file : Option FilePart

/-- Outcome of a handler: an error response with status and message, a
success response (`id` for create, message otherwise), a binary attachment
response, or an unhandled Python exception (a 500-class failure). -/
inductive Result where
  | errResp (status : Nat) (msg : Str)
  | okId (id : Nat)
  | okMsg (msg : Str)
  | fileResp (bytes : List Nat) (downloadName : Str)
  | exception
deriving DecidableEq

/-- `filename.lower().endswith('.mid') or filename.lower().endswith('.midi')`. -/
def validMidiExt (filename : Str) : Bool :=
  (pyStr ".mid").isSuffixOf (pyLower filename)
    || (pyStr ".midi").isSuffixOf (pyLower filename)

/-- Python falsiness of an optional string form field (`if not name`). -/
def strFalsy : Option Str → Bool
  | none => true
  | some s => s.isEmpty

/-- Tag resolution (`app.py` lines 98–105 / 188–195): for each cleaned
name, reuse the `tag` row with that exact name if present, otherwise
insert a new row whose id the flush makes available at once.  Returns the
resolved tag ids in order and the store with any new rows. -/
def resolveTags : List Str → DB → List Nat × DB
  | [], db => ([], db)
  | n :: ns, db =>
    match db.tags.find? (fun t => t.tag == n) with
    | some t =>
      let r := resolveTags ns db
      (t.id :: r.1, r.2)
    | none =>
      let newTag : Tag := ⟨db.nextTagId, n⟩
      let db1 : DB := { db with tags := db.tags ++ [newTag], nextTagId := db.nextTagId + 1 }
      let r := resolveTags ns db1
      (newTag.id :: r.1, r.2)

/-- The `/addfile` handler (`app.py` lines 49–112).  Validation in source
order: file part, filename, extension, name, tags shape; then
normalization (which can raise on non-string elements), tag resolution,
and the committed insert of the new row and its associations. -/
def add_file (db : DB) (req : AddReq) : Result × DB :=
  match req.file with
  | none => (.errResp 400 (pyStr "No file part"), db)
  | some fp =>
    if fp.filename = [] then (.errResp 400 (pyStr "No selected file"), db)
    else if ¬ validMidiExt fp.filename then
      (.errResp 400 (pyStr "File must be a MIDI (.mid/.midi)"), db)
    else if strFalsy req.name then (.errResp 400 (pyStr "Name is required"), db)
    else
      match req.tags.getD (.wellFormed (.arr [])) with
      | .malformed => (.errResp 400 (pyStr "Invalid tags format"), db)
      | .wellFormed (.arr elems) =>
        match normalizeJsonFrom [] elems with
        | .error _ => (.exception, db)
        | .ok names =>
          let r := resolveTags names db
          let fid := r.2.nextFileId
          let newFile : MidiFile := ⟨fid, req.name.getD [], fp.content, req.description⟩
          (.okId fid,
            { r.2 with
              files := r.2.files ++ [newFile],
              file_tag := r.2.file_tag ++ r.1.map (fun tid => (fid, tid)),
              nextFileId := fid + 1 })
      | .wellFormed _ => (.errResp 400 (pyStr "Invalid tags format"), db)

/-- SQL `LIKE` pattern matching: `%` matches any sequence, `_` any single
character, anything else itself.  Structural recursion on a fuel counter so
the kernel can evaluate it; every recursive call shortens `pat` or `text`,
so fuel `pat.length + text.length + 1` never reaches the `0` clause. -/
def likeMatchesFuel : Nat → List Char → List Char → Bool
  | 0, _, _ => false
  | _ + 1, [], [] => true
  | _ + 1, [], _ :: _ => false
  | k + 1, '%' :: ps, [] => likeMatchesFuel k ps []
  | k + 1, '%' :: ps, c :: cs =>
      likeMatchesFuel k ps (c :: cs) || likeMatchesFuel k ('%' :: ps) cs
  | _ + 1, '_' :: _, [] => false
  | k + 1, '_' :: ps, _ :: cs => likeMatchesFuel k ps cs
  | _ + 1, _ :: _, [] => false
  | k + 1, p :: ps, c :: cs => (p == c) && likeMatchesFuel k ps cs

/-- `LIKE` matching with enough fuel for the whole search. -/
def likeMatches (pat text : List Char) : Bool :=
  likeMatchesFuel (pat.length + text.length + 1) pat text

/-- `column.ilike(pattern)`: case-insensitive `LIKE`. -/
def ilike (text pattern : Str) : Bool := likeMatches (pyLower pattern) (pyLower text)

/-- The `/getfiles` query (`app.py` lines 117–134), after the JSON-body
check: one `filter` per requested tag id (EXISTS over the association
table), then the `ilike '%search%'` filter when the stripped search string
is non-empty.  Returns the matching rows. -/
def get_files (db : DB) (tagIds : Option (List Nat)) (search : Option Str) : List MidiFile :=
  let s := pyStrip (search.getD [])
  let q := (tagIds.getD []).foldl
    (fun fs tid =>
      fs.filter (fun f => db.file_tag.any (fun p => p.1 == f.id && p.2 == tid)))
    db.files
  if s = [] then q
  else q.filter (fun f => ilike f.name ('%' :: s ++ ['%']))

/-- The `/updatefile` handler (`app.py` lines 148–207).  An error response
leaves the store unchanged (nothing is committed); on success the row is
updated and its association rows replaced by the resolved tag ids. -/
def update_file (db : DB) (req : UpdateReq) : Result × DB :=
  match req.id with
  | none => (.errResp 400 (pyStr "File ID not provided"), db)
  | some fid =>
    match db.files.find? (fun f => f.id == fid) with
    | none => (.errResp 404 (pyStr "File not found"), db)
    | some f =>
      let f1 := match req.name with
        | some n => if n = [] then f else { f with name := n }
        | none => f
      let f2 := match req.description with
        | some d => { f1 with description := some d }
        | none => f1
      match req.tags.getD (.wellFormed (.arr [])) with
      | .malformed => (.errResp 400 (pyStr "Invalid tags format"), db)
      | .wellFormed (.arr elems) =>
        match normalizeJsonFrom [] elems with
        | .error _ => (.exception, db)
        | .ok names =>
          let r := resolveTags names db
          let commit := fun (fupd : MidiFile) =>
            (Result.okMsg (pyStr "File updated successfully"),
              { r.2 with
                files := r.2.files.map (fun g => if g.id == fid then fupd else g),
                file_tag := (r.2.file_tag.filter (fun p => p.1 ≠ fid))
                  ++ r.1.map (fun tid => (fid, tid)) })
          match req.file with
          | some fp =>
            if validMidiExt fp.filename then commit { f2 with file_data := fp.content }
            else (.errResp 400 (pyStr "File must be a MIDI (.mid/.midi)"), db)
          | none => commit f2
      | .wellFormed _ => (.errResp 400 (pyStr "Invalid tags format"), db)

/-- The `/downloadfile` handler (`app.py` lines 212–229).  `id` is taken
from the JSON body; `if not file_id` is Python falsiness, so an absent id
or the id `0` short-circuits.  `get_or_404` gives 404 when no row matches;
an empty (falsy) blob gives 404; otherwise the stored bytes are returned
as an attachment named `<name or 'download'>.mid`. -/
def download_file (db : DB) (fileId : Option Nat) : Result :=
  match fileId with
  | none => .errResp 400 (pyStr "File ID not provided")
  | some n =>
    if n = 0 then .errResp 400 (pyStr "File ID not provided")
    else
      match db.files.find? (fun f => f.id == n) with
      | none => .errResp 404 (pyStr "Not Found")
      | some f =>
        if f.file_data = [] then .errResp 404 (pyStr "No file data found")
        else .fileResp f.file_data
          ((if f.name = [] then pyStr "download" else f.name) ++ pyStr ".mid")

/-- The `/deletefile` handler (`app.py` lines 232–245): look the row up,
then delete it; the association rows for that file id go with it (the
`secondary` relationship), the `tag` rows stay. -/
def delete_file (db : DB) (fileId : Option Nat) : Result × DB :=
  match fileId with
  | none => (.errResp 400 (pyStr "No file ID provided"), db)
  | some n =>
    if n = 0 then (.errResp 400 (pyStr "No file ID provided"), db)
    else
      match db.files.find? (fun f => f.id == n) with
      | none => (.errResp 404 (pyStr "File not found"), db)
      | some _ =>
        (.okMsg (pyStr "File deleted successfully"),
          { db with
            files := db.files.filter (fun g => g.id ≠ n),
            file_tag := db.file_tag.filter (fun p => p.1 ≠ n) })

example : validMidiExt (pyStr "song.txt") = false := by decide
example : validMidiExt (pyStr "SONG.MIDI") = true := by decide
example : likeMatches (pyStr "%a%b%") (pyStr "ab") = true := by decide

/-- C8.  Tag normalization is idempotent: running the normalization loop on
its own output returns that output unchanged. -/
theorem tag_normalization_idempotent (ts : List Str) :
    normalizeTags (normalizeTags ts) = normalizeTags ts :=
  normalizeFrom_fixed (normalizeTags ts) []
    (fun x hx => by simpa using (normalizeFrom_invariant ts []).1 x hx)
    (normalizeFrom_invariant ts []).2

/-- C9.  Deduplication invariant: no two entries of the normalized output
are case-insensitively equal after trimming, so the tag list persisted for
a file never holds two tags equal up to case and surrounding whitespace. -/
theorem tag_normalization_no_ci_duplicates (ts : List Str) :
    (normalizeTags ts).Pairwise
      (fun a b => pyLower (pyStrip a) ≠ pyLower (pyStrip b)) := by
  have hinv := normalizeFrom_invariant ts []
  refine List.Pairwise.imp_of_mem ?_ hinv.2
  intro a b ha hb hne
  rw [(hinv.1 a ha).1, (hinv.1 b hb).1]
  exact hne

/-! ### C2: the `/getfiles` filter -/

/-- Spec-side: `needle` occurs contiguously in this list. -/
def containsSub (needle : Str) : Str → Bool
  | [] => needle.isPrefixOf []
  | c :: t => needle.isPrefixOf (c :: t) || containsSub needle t

/-- Spec-side: case-insensitive substring containment, the wording the spec
uses for the search filter. -/
def ciSubstring (needle hay : Str) : Bool := containsSub (pyLower needle) (pyLower hay)

theorem mem_foldl_filter (pred : β → α → Bool) (l : List β) :
    ∀ (files : List α) (f : α),
      f ∈ l.foldl (fun fs b => fs.filter (pred b)) files
        ↔ f ∈ files ∧ ∀ b ∈ l, pred b f := by
  induction l with
  | nil => intro files f; simp
  | cons b bs ih =>
    intro files f
    rw [List.foldl_cons, ih]
    simp only [List.mem_filter, List.forall_mem_cons, and_assoc]

theorem any_pair_iff_mem (l : List (Nat × Nat)) (a b : Nat) :
    (l.any (fun p => p.1 == a && p.2 == b) = true) ↔ (a, b) ∈ l := by
  simp only [List.any_eq_true, Bool.and_eq_true, beq_iff_eq]
  constructor
  · rintro ⟨⟨x, y⟩, hmem, h1, h2⟩
    subst h1; subst h2; exact hmem
  · intro h; exact ⟨(a, b), h, rfl, rfl⟩

theorem get_files_subset (db : DB) (tagIds : Option (List Nat)) (search : Option Str)
    (g : MidiFile) (h : g ∈ get_files db tagIds search) : g ∈ db.files := by
  rw [get_files] at h
  by_cases hs : pyStrip (search.getD []) = []
  · rw [if_pos hs] at h
    exact ((mem_foldl_filter _ _ _ _).1 h).1
  · rw [if_neg hs] at h
    exact ((mem_foldl_filter _ _ _ _).1 (List.mem_filter.1 h).1).1

/-- C2, amended.  Query characterization: a row is returned iff it is
stored, is associated (in the `file_tag` table) with every requested tag
id, and — when the trimmed search string is non-empty — its name matches
the SQL `ILIKE` pattern `%search%` (so `%` and `_` inside the search
string act as wildcards, not as literal characters). -/
theorem get_files_ilike_characterization (db : DB) (tagIds : Option (List Nat))
    (search : Option Str) (f : MidiFile) :
    f ∈ get_files db tagIds search ↔
      f ∈ db.files
      ∧ (∀ tid ∈ tagIds.getD [], (f.id, tid) ∈ db.file_tag)
      ∧ (pyStrip (search.getD []) = []
          ∨ ilike f.name ('%' :: pyStrip (search.getD []) ++ ['%']) = true) := by
  rw [get_files]
  by_cases hs : pyStrip (search.getD []) = []
  · rw [if_pos hs, mem_foldl_filter]
    simp only [any_pair_iff_mem, hs, true_or, and_true]
  · rw [if_neg hs, List.mem_filter, mem_foldl_filter]
    simp only [any_pair_iff_mem, hs, false_or, and_assoc]

/-- C2, counterexample to the claim as stated: with a stored file named
`ab` and search string `a%b` (non-empty after trimming, and not a
substring of the name), the query still returns the file, because `%` is
an `ILIKE` wildcard in `name.ilike('%' + search + '%')`. -/
theorem get_files_substring_counterexample :
    (⟨1, pyStr "ab", [1], none⟩ : MidiFile)
        ∈ get_files ⟨[⟨1, pyStr "ab", [1], none⟩], [], [], 2, 1⟩ none (some (pyStr "a%b"))
    ∧ ciSubstring (pyStr "a%b") (pyStr "ab") = false := by
  constructor
  · decide
  · decide

/-! ### C4: `/addfile` validation -/

/-- The parsed `tags` form field (absent defaults to the JSON text `[]`)
fails the `json.loads` + list-shape validation of the handlers. -/
def tagsFieldBad (t : Option TagsField) : Bool :=
  match t.getD (.wellFormed (.arr [])) with
  | .wellFormed (.arr _) => false
  | _ => true

/-- Status code of a response; `none` for success bodies and exceptions. -/
def Result.status : Result → Option Nat
  | .errResp s _ => some s
  | _ => none

/-- C4.  Create validation: `/addfile` answers 400 exactly when the file
part is missing, the filename is empty, the extension is not `.mid`/`.midi`
case-insensitively, the name field is missing or empty, or the tags field
is not a well-formed JSON array — and the error produced is the one of the
first failing check in that order.  A `.txt` filename fails the extension
check; `.mid` and `.MIDI` pass it. -/
theorem add_file_validation (db : DB) (req : AddReq) :
    ((∃ m, (add_file db req).1 = Result.errResp 400 m) ↔
      (req.file = none ∨ ∃ fp, req.file = some fp ∧
        (fp.filename = [] ∨ validMidiExt fp.filename = false
          ∨ strFalsy req.name = true ∨ tagsFieldBad req.tags = true)))
    ∧ (req.file = none → (add_file db req).1 = .errResp 400 (pyStr "No file part"))
    ∧ (∀ fp, req.file = some fp → fp.filename = [] →
        (add_file db req).1 = .errResp 400 (pyStr "No selected file"))
    ∧ (∀ fp, req.file = some fp → fp.filename ≠ [] → validMidiExt fp.filename = false →
        (add_file db req).1 = .errResp 400 (pyStr "File must be a MIDI (.mid/.midi)"))
    ∧ (∀ fp, req.file = some fp → fp.filename ≠ [] → validMidiExt fp.filename = true →
        strFalsy req.name = true →
        (add_file db req).1 = .errResp 400 (pyStr "Name is required"))
    ∧ (∀ fp, req.file = some fp → fp.filename ≠ [] → validMidiExt fp.filename = true →
        strFalsy req.name = false → tagsFieldBad req.tags = true →
        (add_file db req).1 = .errResp 400 (pyStr "Invalid tags format"))
    ∧ validMidiExt (pyStr "song.txt") = false
    ∧ validMidiExt (pyStr "song.mid") = true
    ∧ validMidiExt (pyStr "SONG.MIDI") = true := by
  have hnofile : req.file = none →
      (add_file db req).1 = .errResp 400 (pyStr "No file part") := by
    intro h; simp [add_file, h]
  have hempty : ∀ fp, req.file = some fp → fp.filename = [] →
      (add_file db req).1 = .errResp 400 (pyStr "No selected file") := by
    intro fp h hfn; simp [add_file, h, hfn]
  have hextImp : ∀ fp, req.file = some fp → fp.filename ≠ [] →
      validMidiExt fp.filename = false →
      (add_file db req).1 = .errResp 400 (pyStr "File must be a MIDI (.mid/.midi)") := by
    intro fp h hfn hv; simp [add_file, h, hfn, hv]
  have hnameImp : ∀ fp, req.file = some fp → fp.filename ≠ [] →
      validMidiExt fp.filename = true → strFalsy req.name = true →
      (add_file db req).1 = .errResp 400 (pyStr "Name is required") := by
    intro fp h hfn hv hn; simp [add_file, h, hfn, hv, hn]
  have htagsImp : ∀ fp, req.file = some fp → fp.filename ≠ [] →
      validMidiExt fp.filename = true → strFalsy req.name = false →
      tagsFieldBad req.tags = true →
      (add_file db req).1 = .errResp 400 (pyStr "Invalid tags format") := by
    intro fp h hfn hv hn ht
    rcases hto : req.tags with _ | tf
    · rw [hto] at ht; simp [tagsFieldBad] at ht
    · cases tf with
      | malformed => simp [add_file, h, hfn, hv, hn, hto]
      | wellFormed j =>
        cases j with
        | arr elems => rw [hto] at ht; simp [tagsFieldBad] at ht
        | str s => simp [add_file, h, hfn, hv, hn, hto]
        | num n => simp [add_file, h, hfn, hv, hn, hto]
        | bool b => simp [add_file, h, hfn, hv, hn, hto]
        | null => simp [add_file, h, hfn, hv, hn, hto]
        | obj => simp [add_file, h, hfn, hv, hn, hto]
  refine ⟨?_, hnofile, hempty, hextImp, hnameImp, htagsImp, by decide, by decide, by decide⟩
  constructor
  · rintro ⟨m, hm⟩
    rcases hfile : req.file with _ | fp
    · exact Or.inl rfl
    · refine Or.inr ⟨fp, rfl, ?_⟩
      by_contra hnot
      push_neg at hnot
      obtain ⟨h1, h2, h3, h4⟩ := hnot
      have hv : validMidiExt fp.filename = true := by
        revert h2; cases validMidiExt fp.filename <;> simp
      have hn : strFalsy req.name = false := by
        revert h3; cases strFalsy req.name <;> simp
      have ht : tagsFieldBad req.tags = false := by
        revert h4; cases tagsFieldBad req.tags <;> simp
      obtain ⟨elems, helems⟩ :
          ∃ elems, req.tags.getD (.wellFormed (.arr [])) = .wellFormed (.arr elems) := by
        rcases hto : req.tags with _ | tf
        · exact ⟨[], rfl⟩
        · rw [hto] at ht
          cases tf with
          | malformed => simp [tagsFieldBad] at ht
          | wellFormed j =>
            cases j with
            | arr elems => exact ⟨elems, rfl⟩
            | str s => simp [tagsFieldBad] at ht
            | num n => simp [tagsFieldBad] at ht
            | bool b => simp [tagsFieldBad] at ht
            | null => simp [tagsFieldBad] at ht
            | obj => simp [tagsFieldBad] at ht
      rcases hnorm : normalizeJsonFrom [] elems with e | names
      · simp [add_file, hfile, h1, hv, hn, helems, hnorm] at hm
      · simp [add_file, hfile, h1, hv, hn, helems, hnorm] at hm
  · rintro (h | ⟨fp, hfp, hcase⟩)
    · exact ⟨_, hnofile h⟩
    · by_cases hfn : fp.filename = []
      · exact ⟨_, hempty fp hfp hfn⟩
      · rcases hvb : validMidiExt fp.filename with _ | _
        · exact ⟨_, hextImp fp hfp hfn hvb⟩
        · rcases hnb : strFalsy req.name with _ | _
          · rcases htb : tagsFieldBad req.tags with _ | _
            · rcases hcase with h | h | h | h
              · exact absurd h hfn
              · rw [hvb] at h; cases h
              · rw [hnb] at h; cases h
              · rw [htb] at h; cases h
            · exact ⟨_, htagsImp fp hfp hfn hvb hnb htb⟩
          · exact ⟨_, hnameImp fp hfp hfn hvb hnb⟩

/-- Witness for C4 at a concrete request: no file part gives the first
400 error. -/
theorem add_file_validation_witness :
    (add_file ⟨[], [], [], 1, 1⟩ ⟨none, none, none, none⟩).1
      = .errResp 400 (pyStr "No file part") :=
  (add_file_validation ⟨[], [], [], 1, 1⟩ ⟨none, none, none, none⟩).2.1 rfl

/-! ### C5: `/downloadfile` -/

/-- C5, counterexample to the claim as stated: with the id field missing
from the request body, the handler answers 400 (`File ID not provided`),
not 404. -/
theorem download_file_missing_id_counterexample :
    download_file ⟨[], [], [], 1, 1⟩ none = .errResp 400 (pyStr "File ID not provided")
    ∧ (download_file ⟨[], [], [], 1, 1⟩ none).status ≠ some 404 := by
  constructor
  · rfl
  · decide

/-- C5, amended.  Download behaviour: a missing (or falsy) id gives 400;
an id matching no stored row gives 404; a matching row whose blob is empty
gives 404; otherwise the stored bytes are returned as an attachment. -/
theorem download_file_characterization (db : DB) (fid : Nat) (f : MidiFile) :
    (download_file db none = .errResp 400 (pyStr "File ID not provided"))
    ∧ (download_file db (some 0) = .errResp 400 (pyStr "File ID not provided"))
    ∧ (fid ≠ 0 → db.files.find? (fun g => g.id == fid) = none →
        download_file db (some fid) = .errResp 404 (pyStr "Not Found"))
    ∧ (fid ≠ 0 → db.files.find? (fun g => g.id == fid) = some f → f.file_data = [] →
        download_file db (some fid) = .errResp 404 (pyStr "No file data found"))
    ∧ (fid ≠ 0 → db.files.find? (fun g => g.id == fid) = some f → f.file_data ≠ [] →
        download_file db (some fid)
          = .fileResp f.file_data
              ((if f.name = [] then pyStr "download" else f.name) ++ pyStr ".mid")) := by
  refine ⟨rfl, rfl, ?_, ?_, ?_⟩
  · intro h0 hfind; simp [download_file, h0, hfind]
  · intro h0 hfind hempt; simp [download_file, h0, hfind, hempt]
  · intro h0 hfind hne; simp [download_file, h0, hfind, hne]

/-- Witness for C5 at concrete inputs: an unknown id on an empty store is
answered 404. -/
theorem download_file_characterization_witness :
    download_file ⟨[], [], [], 1, 1⟩ (some 5) = .errResp 404 (pyStr "Not Found") :=
  (download_file_characterization ⟨[], [], [], 1, 1⟩ 5 ⟨0, [], [], none⟩).2.2.1
    (by decide) rfl

/-! ### C6: `/deletefile` frame -/

/-- C6.  Delete frame: deleting an existing file removes exactly that row
and its `file_tag` association rows, leaves every `tag` row untouched, and
afterwards no query result contains that id and a download of that id is
answered 404. -/
theorem delete_file_frame (db : DB) (n : Nat) (f : MidiFile)
    (hn : n ≠ 0)
    (hfind : db.files.find? (fun g => g.id == n) = some f) :
    (delete_file db (some n)).1 = .okMsg (pyStr "File deleted successfully")
    ∧ (delete_file db (some n)).2.tags = db.tags
    ∧ (∀ g ∈ (delete_file db (some n)).2.files, g.id ≠ n)
    ∧ (∀ g ∈ db.files, g.id ≠ n → g ∈ (delete_file db (some n)).2.files)
    ∧ (∀ p ∈ (delete_file db (some n)).2.file_tag, p.1 ≠ n)
    ∧ (∀ p ∈ db.file_tag, p.1 ≠ n → p ∈ (delete_file db (some n)).2.file_tag)
    ∧ (∀ tagIds search g, g ∈ get_files (delete_file db (some n)).2 tagIds search → g.id ≠ n)
    ∧ download_file (delete_file db (some n)).2 (some n)
        = .errResp 404 (pyStr "Not Found") := by
  have hred : delete_file db (some n)
      = (.okMsg (pyStr "File deleted successfully"),
          { db with
            files := db.files.filter (fun g => g.id ≠ n),
            file_tag := db.file_tag.filter (fun p => p.1 ≠ n) }) := by
    simp [delete_file, hn, hfind]
  rw [hred]
  have hfiles : ∀ g ∈ db.files.filter (fun g => g.id ≠ n), g.id ≠ n := by
    intro g hg
    have := (List.mem_filter.1 hg).2
    simpa using this
  refine ⟨rfl, rfl, hfiles, ?_, ?_, ?_, ?_, ?_⟩
  · intro g hg hne
    exact List.mem_filter.2 ⟨hg, by simpa using hne⟩
  · intro p hp
    have := (List.mem_filter.1 hp).2
    simpa using this
  · intro p hp hne
    exact List.mem_filter.2 ⟨hp, by simpa using hne⟩
  · intro tagIds search g hg
    exact hfiles g (get_files_subset _ tagIds search g hg)
  · have hnone : (db.files.filter (fun g => g.id ≠ n)).find? (fun g => g.id == n) = none := by
      rw [List.find?_eq_none]
      intro g hg
      simpa using hfiles g hg
    simp only [download_file]
    rw [if_neg hn, hnone]

/-- Witness for C6 at a concrete store: deleting the only file keeps the
tag row and makes the download of that id a 404. -/
theorem delete_file_frame_witness :
    (delete_file ⟨[⟨1, pyStr "a", [7], none⟩], [⟨1, pyStr "t"⟩], [(1, 1)], 2, 2⟩
        (some 1)).2.tags = [⟨1, pyStr "t"⟩]
    ∧ download_file
        (delete_file ⟨[⟨1, pyStr "a", [7], none⟩], [⟨1, pyStr "t"⟩], [(1, 1)], 2, 2⟩
          (some 1)).2 (some 1)
      = .errResp 404 (pyStr "Not Found") := by
  have h := delete_file_frame
    ⟨[⟨1, pyStr "a", [7], none⟩], [⟨1, pyStr "t"⟩], [(1, 1)], 2, 2⟩ 1
    ⟨1, pyStr "a", [7], none⟩ (by decide) (by rfl)
  exact ⟨h.2.1, h.2.2.2.2.2.2.2⟩

/-! ### Helpers shared by C3, C7, C10 -/

theorem resolveTags_preserves (ns : List Str) :
    ∀ db : DB, (resolveTags ns db).2.files = db.files
      ∧ (resolveTags ns db).2.file_tag = db.file_tag
      ∧ (resolveTags ns db).2.nextFileId = db.nextFileId := by
  induction ns with
  | nil => intro db; exact ⟨rfl, rfl, rfl⟩
  | cons n ns ih =>
    intro db
    rcases h : db.tags.find? (fun t => t.tag == n) with _ | t
    · simpa [resolveTags, h] using ih _
    · simpa [resolveTags, h] using ih db

theorem filter_fid_append_eq (l : List (Nat × Nat)) (ids : List Nat) (fid : Nat) :
    ((l.filter (fun p => p.1 ≠ fid)) ++ ids.map (fun tid => (fid, tid))).filter
        (fun p => p.1 = fid) = ids.map (fun tid => (fid, tid))
    ∧ ((l.filter (fun p => p.1 ≠ fid)) ++ ids.map (fun tid => (fid, tid))).filter
        (fun p => p.1 ≠ fid) = l.filter (fun p => p.1 ≠ fid) := by
  constructor
  · rw [List.filter_append]
    have h1 : (l.filter (fun p => p.1 ≠ fid)).filter (fun p => p.1 = fid) = [] := by
      rw [List.filter_eq_nil_iff]
      intro a ha
      have ha2 := (List.mem_filter.1 ha).2
      simp only [decide_not, Bool.not_eq_eq_eq_not, Bool.not_true, decide_eq_false_iff_not] at ha2
      simpa using ha2
    have h2 : (ids.map (fun tid => (fid, tid))).filter (fun p => p.1 = fid)
        = ids.map (fun tid => (fid, tid)) := by
      rw [List.filter_eq_self]
      intro a ha
      obtain ⟨tid, _, rfl⟩ := List.mem_map.1 ha
      simp
    rw [h1, h2, List.nil_append]
  · rw [List.filter_append]
    have h1 : (l.filter (fun p => p.1 ≠ fid)).filter (fun p => p.1 ≠ fid)
        = l.filter (fun p => p.1 ≠ fid) := by
      rw [List.filter_eq_self]
      intro a ha
      exact (List.mem_filter.1 ha).2
    have h2 : (ids.map (fun tid => (fid, tid))).filter (fun p => p.1 ≠ fid) = [] := by
      rw [List.filter_eq_nil_iff]
      intro a ha
      obtain ⟨tid, _, rfl⟩ := List.mem_map.1 ha
      simp
    rw [h1, h2, List.append_nil]

/-- Is this JSON value a string?  Only strings survive `t.strip()`. -/
def isJsonStr : Json → Bool
  | .str _ => true
  | _ => false

theorem normalizeJsonFrom_error :
    ∀ elems : List Json, (∃ j ∈ elems, isJsonStr j = false) →
      ∀ seen, normalizeJsonFrom seen elems = .error () := by
  intro elems
  induction elems with
  | nil => intro hbad; simp at hbad
  | cons j js ih =>
    intro hbad seen
    cases j with
    | str s =>
      have hbad' : ∃ j ∈ js, isJsonStr j = false := by
        rcases hbad with ⟨j0, hj0, hbad0⟩
        rcases List.mem_cons.1 hj0 with rfl | hj0
        · simp [isJsonStr] at hbad0
        · exact ⟨j0, hj0, hbad0⟩
      rw [normalizeJsonFrom]
      by_cases hc : pyStrip s = []
      · simpa [hc] using ih hbad' seen
      · by_cases hm : pyLower (pyStrip s) ∈ seen
        · simpa [hc, hm] using ih hbad' seen
        · simp [hc, hm, ih hbad' (pyLower (pyStrip s) :: seen), Except.map]
    | num n => rfl
    | bool b => rfl
    | null => rfl
    | arr a => rfl
    | obj => rfl

/-! ### C3: `/updatefile` replaces the tag set -/

/-- C3.  Update tag replacement: on an existing file (and a valid or absent
replacement file part), the committed `file_tag` rows for that file id are
exactly the resolved normalized tags of the request, and rows of other
files are untouched; an absent `tags` field behaves as the empty JSON
array, so both it and an explicit `[]` leave the file with no tag
associations. -/
theorem update_file_replaces_tag_set (db : DB) (req : UpdateReq) (fid : Nat) (f : MidiFile)
    (hid : req.id = some fid)
    (hfind : db.files.find? (fun g => g.id == fid) = some f)
    (hfp : ∀ fp, req.file = some fp → validMidiExt fp.filename = true) :
    (∀ elems names,
      req.tags.getD (.wellFormed (.arr [])) = .wellFormed (.arr elems) →
      normalizeJsonFrom [] elems = .ok names →
      (update_file db req).1 = .okMsg (pyStr "File updated successfully")
      ∧ (update_file db req).2.file_tag.filter (fun p => p.1 = fid)
          = (resolveTags names db).1.map (fun tid => (fid, tid))
      ∧ (update_file db req).2.file_tag.filter (fun p => p.1 ≠ fid)
          = db.file_tag.filter (fun p => p.1 ≠ fid))
    ∧ ((req.tags = none ∨ req.tags = some (.wellFormed (.arr []))) →
        (update_file db req).2.file_tag.filter (fun p => p.1 = fid) = []) := by
  have hmain : ∀ elems names,
      req.tags.getD (.wellFormed (.arr [])) = .wellFormed (.arr elems) →
      normalizeJsonFrom [] elems = .ok names →
      (update_file db req).1 = .okMsg (pyStr "File updated successfully")
      ∧ (update_file db req).2.file_tag.filter (fun p => p.1 = fid)
          = (resolveTags names db).1.map (fun tid => (fid, tid))
      ∧ (update_file db req).2.file_tag.filter (fun p => p.1 ≠ fid)
          = db.file_tag.filter (fun p => p.1 ≠ fid) := by
    intro elems names htags hnorm
    obtain ⟨-, hft, -⟩ := resolveTags_preserves names db
    have hfilters := filter_fid_append_eq db.file_tag (resolveTags names db).1 fid
    rcases hfile : req.file with _ | fp
    · have hred : update_file db req
          = (.okMsg (pyStr "File updated successfully"),
             { (resolveTags names db).2 with
               files := (resolveTags names db).2.files.map
                 (fun g => if g.id == fid then
                    (match req.description with
                     | some d => { (match req.name with
                                    | some n => if n = [] then f else { f with name := n }
                                    | none => f) with description := some d }
                     | none => (match req.name with
                                | some n => if n = [] then f else { f with name := n }
                                | none => f)) else g),
               file_tag := ((resolveTags names db).2.file_tag.filter (fun p => p.1 ≠ fid))
                 ++ (resolveTags names db).1.map (fun tid => (fid, tid)) }) := by
        simp [update_file, hid, hfind, htags, hnorm, hfile]
      rw [hred]
      simp only [hft]
      exact ⟨trivial, hfilters.1, hfilters.2⟩
    · have hv := hfp fp hfile
      have hred : update_file db req
          = (.okMsg (pyStr "File updated successfully"),
             { (resolveTags names db).2 with
               files := (resolveTags names db).2.files.map
                 (fun g => if g.id == fid then
                    { (match req.description with
                       | some d => { (match req.name with
                                      | some n => if n = [] then f else { f with name := n }
                                      | none => f) with description := some d }
                       | none => (match req.name with
                                  | some n => if n = [] then f else { f with name := n }
                                  | none => f)) with file_data := fp.content } else g),
               file_tag := ((resolveTags names db).2.file_tag.filter (fun p => p.1 ≠ fid))
                 ++ (resolveTags names db).1.map (fun tid => (fid, tid)) }) := by
        simp [update_file, hid, hfind, htags, hnorm, hfile, hv]
      rw [hred]
      simp only [hft]
      exact ⟨trivial, hfilters.1, hfilters.2⟩
  refine ⟨hmain, ?_⟩
  rintro (h | h)
  · exact (hmain [] [] (by rw [h]; rfl) rfl).2.1
  · exact (hmain [] [] (by rw [h]; rfl) rfl).2.1

/-- Witness for C3 at a concrete store: updating the only file with the
`tags` field absent clears its association rows. -/
theorem update_file_replaces_tag_set_witness :
    (update_file ⟨[⟨1, pyStr "a", [7], none⟩], [⟨1, pyStr "t"⟩], [(1, 1)], 2, 2⟩
        ⟨some 1, none, none, none, none⟩).2.file_tag.filter (fun p => p.1 = 1) = [] :=
  (update_file_replaces_tag_set
    ⟨[⟨1, pyStr "a", [7], none⟩], [⟨1, pyStr "t"⟩], [(1, 1)], 2, 2⟩
    ⟨some 1, none, none, none, none⟩ 1 ⟨1, pyStr "a", [7], none⟩
    rfl rfl (fun _ h => nomatch h)).2 (Or.inl rfl)

/-! ### C7: binary round-trip -/

/-- C7, counterexample to the claim as stated: uploading an empty byte
sequence succeeds, but downloading it answers 404 (`No file data found`)
instead of returning the empty blob, because `if not midi_file.file_data`
treats empty bytes as missing. -/
theorem roundtrip_empty_bytes_counterexample :
    (add_file ⟨[], [], [], 1, 1⟩
        ⟨some ⟨pyStr "a.mid", []⟩, some (pyStr "n"), none, none⟩).1 = .okId 1
    ∧ download_file (add_file ⟨[], [], [], 1, 1⟩
        ⟨some ⟨pyStr "a.mid", []⟩, some (pyStr "n"), none, none⟩).2 (some 1)
      = .errResp 404 (pyStr "No file data found") := by
  constructor
  · decide
  · decide

/-- C7, amended.  Binary round-trip for non-empty payloads: when a create
request passes validation, its byte sequence is non-empty, and the store's
next file id is fresh and non-zero, downloading the new id returns exactly
the uploaded bytes. -/
theorem roundtrip_nonempty_bytes (db : DB) (req : AddReq) (fp : FilePart)
    (elems : List Json) (names : List Str)
    (hfile : req.file = some fp)
    (hfn : fp.filename ≠ [])
    (hext : validMidiExt fp.filename = true)
    (hname : strFalsy req.name = false)
    (htags : req.tags.getD (.wellFormed (.arr [])) = .wellFormed (.arr elems))
    (hnorm : normalizeJsonFrom [] elems = .ok names)
    (hbytes : fp.content ≠ [])
    (hfresh : ∀ g ∈ db.files, g.id < db.nextFileId)
    (hpos : db.nextFileId ≠ 0) :
    (add_file db req).1 = .okId db.nextFileId
    ∧ download_file (add_file db req).2 (some db.nextFileId)
        = .fileResp fp.content (req.name.getD [] ++ pyStr ".mid") := by
  obtain ⟨hf, -, hnf⟩ := resolveTags_preserves names db
  have hfind1 : db.files.find? (fun g => g.id == db.nextFileId) = none := by
    rw [List.find?_eq_none]
    intro g hg
    have := hfresh g hg
    simp only [beq_iff_eq]
    omega
  have hnm : req.name.getD [] ≠ [] := by
    rcases hq : req.name with _ | s
    · rw [hq] at hname; simp [strFalsy] at hname
    · rw [hq] at hname
      simp only [strFalsy, List.isEmpty_eq_false] at hname
      simpa using hname
  have hred : add_file db req
      = (.okId (resolveTags names db).2.nextFileId,
         { (resolveTags names db).2 with
           files := (resolveTags names db).2.files
             ++ [⟨(resolveTags names db).2.nextFileId, req.name.getD [],
                  fp.content, req.description⟩],
           file_tag := (resolveTags names db).2.file_tag
             ++ (resolveTags names db).1.map
                  (fun tid => ((resolveTags names db).2.nextFileId, tid)),
           nextFileId := (resolveTags names db).2.nextFileId + 1 }) := by
    simp [add_file, hfile, hfn, hext, hname, htags, hnorm]
  rw [hred]
  simp only [hf, hnf]
  refine ⟨trivial, ?_⟩
  simp only [download_file]
  rw [if_neg hpos, List.find?_append, hfind1]
  simp [hbytes, hnm]

/-- Witness for C7 at a concrete store: bytes `[7, 8]` come back intact. -/
theorem roundtrip_nonempty_bytes_witness :
    download_file (add_file ⟨[], [], [], 1, 1⟩
        ⟨some ⟨pyStr "a.mid", [7, 8]⟩, some (pyStr "n"), none, none⟩).2 (some 1)
      = .fileResp [7, 8] (pyStr "n.mid") := by
  have h := roundtrip_nonempty_bytes ⟨[], [], [], 1, 1⟩
    ⟨some ⟨pyStr "a.mid", [7, 8]⟩, some (pyStr "n"), none, none⟩
    ⟨pyStr "a.mid", [7, 8]⟩ [] [] rfl (by decide) (by decide) rfl rfl rfl
    (by decide) (by simp) (by decide)
  exact h.2.trans (by decide)

/-! ### C10: non-string tag elements raise, not 400 -/

/-- C10.  When the tags field parses to a JSON array containing a
non-string element and every earlier validation passes, both `/addfile`
and `/updatefile` end in an unhandled exception (a 500-class failure, not
a 400 response), and nothing is committed. -/
theorem nonstring_tags_unhandled_exception (db : DB) :
    (∀ (req : AddReq) (fp : FilePart) (elems : List Json),
      req.file = some fp → fp.filename ≠ [] → validMidiExt fp.filename = true →
      strFalsy req.name = false →
      req.tags = some (.wellFormed (.arr elems)) →
      (∃ j ∈ elems, isJsonStr j = false) →
      add_file db req = (.exception, db))
    ∧ (∀ (req : UpdateReq) (fid : Nat) (f : MidiFile) (elems : List Json),
      req.id = some fid →
      db.files.find? (fun g => g.id == fid) = some f →
      req.tags = some (.wellFormed (.arr elems)) →
      (∃ j ∈ elems, isJsonStr j = false) →
      update_file db req = (.exception, db)) := by
  constructor
  · intro req fp elems hfile hfn hext hname htags hbad
    have herr := normalizeJsonFrom_error elems hbad []
    simp [add_file, hfile, hfn, hext, hname, htags, herr]
  · intro req fid f elems hid hfind htags hbad
    have herr := normalizeJsonFrom_error elems hbad []
    simp [update_file, hid, hfind, htags, herr]

/-- Witness for C10 at a concrete request: tags `[3]` makes `/addfile`
raise instead of answering 400. -/
theorem nonstring_tags_unhandled_exception_witness :
    add_file ⟨[], [], [], 1, 1⟩
        ⟨some ⟨pyStr "a.mid", [1]⟩, some (pyStr "n"), none,
         some (.wellFormed (.arr [.num 3]))⟩
      = (.exception, ⟨[], [], [], 1, 1⟩) :=
  (nonstring_tags_unhandled_exception ⟨[], [], [], 1, 1⟩).1
    ⟨some ⟨pyStr "a.mid", [1]⟩, some (pyStr "n"), none,
     some (.wellFormed (.arr [.num 3]))⟩
    ⟨pyStr "a.mid", [1]⟩ [.num 3] rfl (by decide) (by decide) rfl rfl
    ⟨.num 3, List.mem_cons_self _ _, rfl⟩

end MidiApp
